import Mathlib

/-!
Verification development for `src/maven-checker.py`, a Maven dependency
version scanner: it walks a fixed list of Stash/Bitbucket repositories
through a paginated directory-listing API, collects paths of `pom.xml`
files, fetches each file's raw content, extracts version tags by
substring search, and emits one report row per (file, tag, value).

The embedding below is a shallow model of the Python source.  Network
calls (`requests.get` + `raise_for_status` + `.json()` / `.text`) are
modelled by function parameters returning `Except String _`: an `.error`
value models a raised exception, which propagates exactly where a Python
exception would propagate.  The unbounded `while`/recursion of the
directory walk is bounded by an explicit fuel argument (the walk itself
has no termination guarantee); all theorems either quantify over the
fuel or use a concrete fuel large enough for the concrete mock API.
Strings are modelled by Lean `String` / `List Char`; Python `str.find`,
slicing, `strip`, `endswith` and dict insertion are each given their own
small model definition next to the place they are used.
-/

/-- One entry of a directory listing page (`data['values'][i]` in the
source): either a plain path string, or a structured (dict) entry with a
`type` tag (`DIRECTORY` / `FILE` / anything else), a `name` and a
`path['toString']`; `other` models any value that is neither a string
nor a dict. -/
inductive Entry where
  | str (s : String)
  | dict (type name path : String)
  | other
deriving DecidableEq, Repr

/-- One directory listing page: the `values` entries plus the pagination
state `isLastPage` / `nextPageStart` read by `recursive_search`. -/
structure Page where
  values : List Entry
  isLastPage : Bool
  nextPageStart : Nat
deriving DecidableEq, Repr

/-- The listing API: maps a request URL to a parsed JSON page, or to an
error (modelling a non-2xx status / network failure raised by
`raise_for_status`).  Authentication is absorbed into the function. -/
abbrev ListApi := String → Except String Page

/-- Model of `get_repo_data` (lines 62-73): an authenticated GET of the
URL; an `.error` result models the raised exception. -/
def get_repo_data (api : ListApi) (api_url : String) : Except String Page :=
  api api_url

/-- Model of Python `s.endswith(suffix)` on character lists. -/
def py_endswith (s suffix : List Char) : Bool :=
  suffix.isSuffixOf s

/-- The body of the `for file_info in data.get('values', [])` loop of
`recursive_search` (lines 90-99), processing the entries of one page in
order.  `search1` is the recursive call made for a DIRECTORY entry (the
enclosing recursion, one fuel step lower).  Returns the `pom.xml` paths
appended by these entries (in append order) and the trace of listing
URLs requested by the recursive descents, or the first error raised. -/
def process_values (search1 : String → Except String (List String × List String))
    (base_url : String) : List Entry → Except String (List String × List String)
  | [] => .ok ([], [])
  | file_info :: rest =>
    match file_info with
    | .str s =>
      match process_values search1 base_url rest with
      | .error e => .error e
      | .ok r2 => .ok ((if py_endswith s.toList "pom.xml".toList then [s] else []) ++ r2.1, r2.2)
    | .dict type name path =>
      if type = "DIRECTORY" then
        match search1 (base_url ++ "/" ++ path) with
        | .error e => .error e
        | .ok r1 =>
          match process_values search1 base_url rest with
          | .error e => .error e
          | .ok r2 => .ok (r1.1 ++ r2.1, r1.2 ++ r2.2)
      else if type = "FILE" then
        match process_values search1 base_url rest with
        | .error e => .error e
        | .ok r2 => .ok ((if name = "pom.xml" then [path] else []) ++ r2.1, r2.2)
      else
        process_values search1 base_url rest
    | .other => process_values search1 base_url rest

/-- One iteration of the `while url:` loop of `recursive_search`
(lines 88-106): fetch the page at `url`, process its entries, then if
`isLastPage` stop, otherwise continue with
`f"{api_url}?start={next_page_start}"`.  Crucially, as in the source,
the next-page URL is built from the closure variable `api_url` (the
repository root listing URL passed to `find_pom_xml_in_repo`), not from
the current `url`.  The result pairs the found `pom.xml` paths with the
trace of all listing URLs requested, in request order. -/
def search_step (api : ListApi) (base_url api_url : String)
    (search1 : String → Except String (List String × List String)) (url : String) :
    Except String (List String × List String) :=
  match get_repo_data api url with
  | .error e => .error e
  | .ok data =>
    match process_values search1 base_url data.values with
    | .error e => .error e
    | .ok r1 =>
      if data.isLastPage then .ok (r1.1, url :: r1.2)
      else
        match search1 (api_url ++ "?start=" ++ toString data.nextPageStart) with
        | .error e => .error e
        | .ok r2 => .ok (r1.1 ++ r2.1, url :: r1.2 ++ r2.2)

/-- The inner `recursive_search` of `find_pom_xml_in_repo`
(lines 87-106), with explicit fuel bounding the total number of page
fetches (loop iterations plus recursion depth). -/
def recursive_search (api : ListApi) (base_url api_url : String) :
    Nat → String → Except String (List String × List String)
  | 0 => fun _ => .ok ([], [])
  | fuel + 1 => search_step api base_url api_url (recursive_search api base_url api_url fuel)

/-- Model of `find_pom_xml_in_repo` (lines 75-109): runs
`recursive_search(api_url)` and returns the accumulated `pom_files`
list (the URL trace is dropped). -/
def find_pom_xml_in_repo (api : ListApi) (api_url base_url : String) (fuel : Nat) :
    Except String (List String) :=
  match recursive_search api base_url api_url fuel api_url with
  | .error e => .error e
  | .ok r => .ok r.1

/-- Model of `process_repository` (lines 111-123): builds the repo files
listing URL and searches it (same URL passed as both `api_url` and
`base_url`). -/
def process_repository (api : ListApi) (repo_slug project_key base_api_url : String)
    (fuel : Nat) : Except String (List String) :=
  let stash_api_url :=
    base_api_url ++ "/projects/" ++ project_key ++ "/repos/" ++ repo_slug ++ "/files"
  find_pom_xml_in_repo api stash_api_url stash_api_url fuel

/-- The raw-content API: maps a browse-raw URL to the file's text, or to
an error (raised non-2xx / network failure). -/
abbrev FetchApi := String → Except String String

/-- Model of `fetch_file_content` (lines 125-138). -/
def fetch_file_content (fetch : FetchApi) (project_key repo_slug file_path base_api_url : String) :
    Except String String :=
  fetch (base_api_url ++ "/projects/" ++ project_key ++ "/repos/" ++ repo_slug ++
    "/browse/" ++ file_path ++ "?raw")

/-- Model of Python `content.find(pat)` on character lists: the index of
the first occurrence of `pat` in the argument list, `none` for -1. -/
def pyFind (pat : List Char) : List Char → Option Nat
  | [] => if pat.isPrefixOf ([] : List Char) then some 0 else none
  | c :: rest =>
    if pat.isPrefixOf (c :: rest) then some 0
    else (pyFind pat rest).map (· + 1)

/-- Model of the Python slice `s[a:b]` for nonnegative bounds. -/
def pySlice (s : List Char) (a b : Nat) : List Char :=
  (s.take b).drop a

/-- Model of Python `s.strip()`: drop whitespace from both ends. -/
def pyStrip (s : List Char) : List Char :=
  ((s.dropWhile Char.isWhitespace).reverse.dropWhile Char.isWhitespace).reverse

/-- Model of the Python dict assignment `versions[tag] = value`: update
in place if the key is present (keeping its position), else append. -/
def dictInsert (d : List (String × String)) (k v : String) : List (String × String) :=
  if d.any (fun p => p.1 = k) then
    d.map (fun p => if p.1 = k then (k, v) else p)
  else d ++ [(k, v)]

/-- The body of the `for tag in version_tags` loop of
`find_version_tags_from_pom` (lines 151-159): two independent
first-occurrence lookups for `<tag>` and `</tag>`; if both are found,
record the stripped slice between them under `tag`, else leave the dict
unchanged. -/
def scan_tag (content : List Char) (versions : List (String × String)) (tag : String) :
    List (String × String) :=
  let start_tag := ("<" ++ tag ++ ">").toList
  let end_tag := ("</" ++ tag ++ ">").toList
  match pyFind start_tag content, pyFind end_tag content with
  | some start_index, some end_index =>
    dictInsert versions tag
      (String.mk (pyStrip (pySlice content (start_index + start_tag.length) end_index)))
  | _, _ => versions

/-- Model of `find_version_tags_from_pom` (lines 140-164): scan every
tag of the set, returning `none` (Python `None`) when the resulting
dict is empty.  The `try/except` of the source cannot fire on a string
input (substring search and slicing do not raise), so it has no
counterpart here. -/
def find_version_tags_from_pom (pom_xml_content : String) (version_tags : List String) :
    Option (List (String × String)) :=
  let versions := version_tags.foldl (scan_tag pom_xml_content.toList) []
  if versions.isEmpty then none else some versions

/-- Model of `fetch_and_parse_pom` (lines 210-217): any exception from
the fetch is caught and yields `none`; otherwise the extraction result
is paired with the file path, `none` standing for a falsy `versions`. -/
def fetch_and_parse_pom (fetch : FetchApi)
    (project_key repo_slug pom_file base_api_url : String) (version_tags : List String) :
    Option (String × List (String × String)) :=
  match fetch_file_content fetch project_key repo_slug pom_file base_api_url with
  | .error _ => none
  | .ok pom_content =>
    match find_version_tags_from_pom pom_content version_tags with
    | some versions => some (pom_file, versions)
    | none => none

/-- One CSV data row of the report (line 205):
`[project_key, repo_slug, pom_file, tag, version]`. -/
structure Row where
  projectKey : String
  repoSlug : String
  filePath : String
  versionTag : String
  version : String
deriving DecidableEq, Repr

/-- The rows written for one submitted file task, as observed by main's
result loop (lines 199-205): nothing if the task returned `None`,
otherwise one row per (tag, version) item of the returned dict. -/
def rows_of_task (fetch : FetchApi) (project_key repo_slug base_api_url : String)
    (version_tags : List String) (pom_file : String) : List Row :=
  match fetch_and_parse_pom fetch project_key repo_slug pom_file base_api_url version_tags with
  | some r =>
    if r.2.isEmpty then []
    else r.2.map (fun tv => ⟨project_key, repo_slug, r.1, tv.1, tv.2⟩)
  | none => []

/-- The rows written for one repository (lines 196-205).  The thread
pool submits one task per discovered file and the main thread awaits
`future.result()` in submission order, performing every CSV write
itself, so the emitted row sequence equals this sequential fold. -/
def repo_rows (fetch : FetchApi) (project_key repo_slug base_api_url : String)
    (pom_files : List String) (version_tags : List String) : List Row :=
  pom_files.foldl
    (fun acc pom_file =>
      acc ++ rows_of_task fetch project_key repo_slug base_api_url version_tags pom_file) []

/-- The data rows written by `main`'s repository loop (lines 192-208):
each repository is processed in order inside `try/except`; an exception
escaping `process_repository` is caught and the loop continues with the
next repository, contributing no rows. -/
def main_rows (api : ListApi) (fetch : FetchApi) (base_api_url : String)
    (project_keys_and_slugs : List (String × String)) (version_tags : List String)
    (fuel : Nat) : List Row :=
  project_keys_and_slugs.foldl
    (fun acc pr =>
      match process_repository api pr.2 pr.1 base_api_url fuel with
      | .error _ => acc
      | .ok pom_files =>
        acc ++ repo_rows fetch pr.1 pr.2 base_api_url pom_files version_tags) []

/-- The recording criterion of the walker (lines 91-99), as one
classifier: a plain string entry is recorded iff it ends with
`pom.xml`; a structured FILE entry is recorded iff its name is exactly
`pom.xml`; everything else records nothing. -/
def matchEntry : Entry → Option String
  | .str s => if py_endswith s.toList "pom.xml".toList then some s else none
  | .dict type name path =>
    if type = "DIRECTORY" then none
    else if type = "FILE" then (if name = "pom.xml" then some path else none)
    else none
  | .other => none

/-- The page fetched at URL `u` succeeds and contains an entry that the
walker's criterion maps to the path `p`. -/
def page_produces (api : ListApi) (u : String) (p : String) : Prop :=
  ∃ page, api u = .ok page ∧ ∃ e ∈ page.values, matchEntry e = some p

/-- Both markers `<tag>` and `</tag>` occur in the content (the
condition under which line 157 records a value). -/
def tag_markers_found (content : List Char) (tag : String) : Bool :=
  (pyFind ("<" ++ tag ++ ">").toList content).isSome &&
  (pyFind ("</" ++ tag ++ ">").toList content).isSome

/-- The value the extractor records for `tag` (line 158), as a total
function (junk `""` when a marker is missing, in which case it is never
used). -/
def extracted_value (content : List Char) (tag : String) : String :=
  match pyFind ("<" ++ tag ++ ">").toList content, pyFind ("</" ++ tag ++ ">").toList content with
  | some start_index, some end_index =>
    String.mk (pyStrip (pySlice content (start_index + ("<" ++ tag ++ ">").toList.length) end_index))
  | _, _ => ""

/-- The pattern `pat` occurs in `s` at index `i`. -/
def occursAt (pat s : List Char) (i : Nat) : Bool :=
  pat.isPrefixOf (s.drop i)

/-- Modelled from the spec: a (tag, value) pair is "actually present
between matching markers" in a content string — there are an occurrence
of the opening marker and a no-earlier-than-it occurrence of the
closing marker such that the trimmed text strictly between them is the
value.  This is the spec-side notion the round-trip claim compares the
written rows against; the source has no corresponding function. -/
def matched_pair_encloses (content tag v : String) : Bool :=
  let cs := content.toList
  let ot := ("<" ++ tag ++ ">").toList
  let ct := ("</" ++ tag ++ ">").toList
  (List.range (cs.length + 1)).any (fun i =>
    (List.range (cs.length + 1)).any (fun j =>
      occursAt ot cs i && occursAt ct cs j && decide (i + ot.length ≤ j) &&
      decide (String.mk (pyStrip (pySlice cs (i + ot.length) j)) = v)))

/-! ### List and substring helper lemmas -/

/-- Taking `x.length + n` elements of `x ++ z` keeps `x` whole. -/
theorem take_len_add {α} (x z : List α) (n : Nat) :
    (x ++ z).take (x.length + n) = x ++ z.take n := by
  induction x with
  | nil => simp
  | cons a x ih => simp [Nat.succ_add, ih]

/-- Dropping `x.length` elements of `x ++ v` leaves `v`. -/
theorem drop_len {α} (x v : List α) : (x ++ v).drop x.length = v := by
  induction x with
  | nil => simp
  | cons a x ih => simp [ih]

/-- Taking `x.length` elements of `x ++ z` gives back `x`. -/
theorem take_len {α} (x z : List α) : (x ++ z).take x.length = x := by
  simp

/-- The Python slice from `x.length` to `x.length + v.length` of
`x ++ v ++ y` is exactly `v`. -/
theorem pySlice_exact (x v y : List Char) :
    pySlice (x ++ v ++ y) x.length (x.length + v.length) = v := by
  unfold pySlice
  rw [List.append_assoc x v y, take_len_add, take_len, drop_len]

/-- A successful `pyFind` index is at most the length of the content. -/
theorem pyFind_le (pat : List Char) : ∀ (s : List Char) (i : Nat),
    pyFind pat s = some i → i ≤ s.length := by
  intro s
  induction s with
  | nil =>
    intro i h
    unfold pyFind at h
    split at h
    · cases h; exact Nat.le_refl 0
    · cases h
  | cons c rest ih =>
    intro i h
    unfold pyFind at h
    split at h
    · cases h; exact Nat.zero_le _
    · rcases Option.map_eq_some'.1 h with ⟨j, hj, rfl⟩
      simpa using Nat.succ_le_succ (ih j hj)

/-- A successful `pyFind` really locates an occurrence of the pattern. -/
theorem pyFind_occursAt (pat : List Char) : ∀ (s : List Char) (i : Nat),
    pyFind pat s = some i → occursAt pat s i = true := by
  intro s
  induction s with
  | nil =>
    intro i h
    unfold pyFind at h
    split at h
    · cases h; assumption
    · cases h
  | cons c rest ih =>
    intro i h
    unfold pyFind at h
    split at h
    · cases h; assumption
    · rcases Option.map_eq_some'.1 h with ⟨j, hj, rfl⟩
      simpa [occursAt] using ih j hj

/-! ### Extractor lemmas -/

/-- `scan_tag` as a conditional dict update: if both markers are found,
insert the extracted value, otherwise leave the dict unchanged. -/
theorem scan_tag_eq (c : List Char) (d : List (String × String)) (tag : String) :
    scan_tag c d tag =
      if tag_markers_found c tag then dictInsert d tag (extracted_value c tag) else d := by
  unfold scan_tag tag_markers_found extracted_value
  cases h1 : pyFind ("<" ++ tag ++ ">").toList c <;>
    cases h2 : pyFind ("</" ++ tag ++ ">").toList c <;>
      simp only [h1, h2] <;> simp

/-- A dict update never empties the dict. -/
theorem dictInsert_ne_nil (d : List (String × String)) (k v : String) :
    dictInsert d k v ≠ [] := by
  unfold dictInsert
  split
  · rename_i hc
    cases d with
    | nil => simp at hc
    | cons p d => simp
  · simp

/-- Membership after a dict update: the pair is the inserted one, or was
already present with a different key. -/
theorem mem_dictInsert {d : List (String × String)} {k v t w : String}
    (h : (t, w) ∈ dictInsert d k v) :
    (t = k ∧ w = v) ∨ ((t, w) ∈ d ∧ t ≠ k) := by
  unfold dictInsert at h
  split at h
  · rcases List.mem_map.1 h with ⟨p, hp, he⟩
    by_cases hpk : p.1 = k
    · rw [if_pos hpk] at he
      injection he with he1 he2
      exact Or.inl ⟨he1.symm, he2.symm⟩
    · rw [if_neg hpk] at he
      subst he
      exact Or.inr ⟨hp, by simpa using hpk⟩
  · rename_i hc
    rcases List.mem_append.1 h with h' | h'
    · refine Or.inr ⟨h', fun htk => hc ?_⟩
      exact List.any_eq_true.2 ⟨(t, w), h', by simpa using htk⟩
    · simp at h'
      exact Or.inl ⟨h'.1, h'.2⟩

/-- Folding `scan_tag` over a tag list never empties a nonempty dict. -/
theorem foldl_scan_ne_nil (c : List Char) : ∀ (tags : List String)
    (d : List (String × String)), d ≠ [] → tags.foldl (scan_tag c) d ≠ [] := by
  intro tags
  induction tags with
  | nil => intro d hd; exact hd
  | cons t ts ih =>
    intro d hd
    simp only [List.foldl_cons]
    apply ih
    rw [scan_tag_eq]
    split
    · exact dictInsert_ne_nil _ _ _
    · exact hd

/-- The scan of a tag list starting from the empty dict yields the empty
dict exactly when no tag has both markers present. -/
theorem foldl_scan_nil_iff (c : List Char) : ∀ (tags : List String),
    tags.foldl (scan_tag c) [] = [] ↔ ∀ t ∈ tags, tag_markers_found c t = false := by
  intro tags
  induction tags with
  | nil => simp
  | cons t ts ih =>
    simp only [List.foldl_cons, scan_tag_eq]
    by_cases h : tag_markers_found c t
    · rw [if_pos h]
      constructor
      · intro he
        exact absurd he (foldl_scan_ne_nil c ts _ (dictInsert_ne_nil _ _ _))
      · intro hall
        have := hall t (List.mem_cons_self t ts)
        rw [this] at h
        cases h
    · rw [if_neg h]
      rw [ih]
      constructor
      · intro hall
        intro t' ht'
        rcases List.mem_cons.1 ht' with rfl | ht'
        · exact Bool.eq_false_iff.2 h
        · exact hall t' ht'
      · intro hall t' ht'
        exact hall t' (List.mem_cons_of_mem _ ht')

/-- Every pair in the scanned dict either was in the initial dict or is a
tag with both markers present, carrying exactly the extracted value. -/
theorem mem_foldl_scan (c : List Char) : ∀ (tags : List String)
    (d : List (String × String)) {t v : String},
    (t, v) ∈ tags.foldl (scan_tag c) d →
    (t, v) ∈ d ∨ (tag_markers_found c t = true ∧ v = extracted_value c t) := by
  intro tags
  induction tags with
  | nil => intro d t v h; exact Or.inl h
  | cons tag ts ih =>
    intro d t v h
    simp only [List.foldl_cons] at h
    rcases ih _ h with h' | h'
    · rw [scan_tag_eq] at h'
      split at h'
      · rename_i hfound
        rcases mem_dictInsert h' with ⟨ht, hv⟩ | ⟨hd, _⟩
        · subst ht
          exact Or.inr ⟨hfound, hv⟩
        · exact Or.inl hd
      · exact Or.inl h'
    · exact Or.inr h'

/-- A tag's markers fail to be both present exactly when one of the two
first-occurrence lookups fails. -/
theorem tag_markers_found_false_iff (c : List Char) (tag : String) :
    tag_markers_found c tag = false ↔
      pyFind ("<" ++ tag ++ ">").toList c = none ∨
        pyFind ("</" ++ tag ++ ">").toList c = none := by
  unfold tag_markers_found
  cases h1 : pyFind ("<" ++ tag ++ ">").toList c <;>
    cases h2 : pyFind ("</" ++ tag ++ ">").toList c <;> simp [h1, h2]

/-! ### Claims C4, C5, C6: the Version Extractor -/

/-- Claim C4: for every content and tag whose opening and closing markers both
occur, the extractor records under the tag the trimmed substring of the
content strictly between the end of the first occurrence of the opening
marker and the start of the first occurrence of the closing marker; in
particular, on `"<mono-java.version>2.1.5</mono-java.version>"` with tag
set `["mono-java.version"]` it yields
`{"mono-java.version": "2.1.5"}`. -/
theorem C4_extraction_between_first_markers :
    (∀ (a v b : List Char) (tag : String),
      pyFind ("<" ++ tag ++ ">").toList
          (a ++ ("<" ++ tag ++ ">").toList ++ v ++ ("</" ++ tag ++ ">").toList ++ b)
        = some a.length →
      pyFind ("</" ++ tag ++ ">").toList
          (a ++ ("<" ++ tag ++ ">").toList ++ v ++ ("</" ++ tag ++ ">").toList ++ b)
        = some (a.length + ("<" ++ tag ++ ">").toList.length + v.length) →
      find_version_tags_from_pom
          (String.mk (a ++ ("<" ++ tag ++ ">").toList ++ v ++ ("</" ++ tag ++ ">").toList ++ b))
          [tag]
        = some [(tag, String.mk (pyStrip v))]) ∧
    find_version_tags_from_pom "<mono-java.version>2.1.5</mono-java.version>"
        ["mono-java.version"] = some [("mono-java.version", "2.1.5")] := by
  constructor
  · intro a v b tag h1 h2
    simp only [find_version_tags_from_pom, List.foldl_cons, List.foldl_nil]
    have hcs : (String.mk (a ++ ("<" ++ tag ++ ">").toList ++ v ++
        ("</" ++ tag ++ ">").toList ++ b)).toList
        = a ++ ("<" ++ tag ++ ">").toList ++ v ++ ("</" ++ tag ++ ">").toList ++ b := rfl
    rw [hcs, scan_tag_eq]
    have hf : tag_markers_found
        (a ++ ("<" ++ tag ++ ">").toList ++ v ++ ("</" ++ tag ++ ">").toList ++ b) tag
        = true := by
      unfold tag_markers_found
      rw [h1, h2]
      rfl
    have hsl : pySlice (a ++ ("<" ++ tag ++ ">").toList ++ v ++ ("</" ++ tag ++ ">").toList ++ b)
        (a.length + ("<" ++ tag ++ ">").toList.length)
        (a.length + ("<" ++ tag ++ ">").toList.length + v.length) = v := by
      have h := pySlice_exact (a ++ ("<" ++ tag ++ ">").toList) v
        (("</" ++ tag ++ ">").toList ++ b)
      simpa [List.append_assoc, List.length_append, Nat.add_assoc] using h
    have hext : extracted_value
        (a ++ ("<" ++ tag ++ ">").toList ++ v ++ ("</" ++ tag ++ ">").toList ++ b) tag
        = String.mk (pyStrip v) := by
      unfold extracted_value
      simp only [h1, h2]
      rw [hsl]
    rw [if_pos hf, hext]
    rfl
  · decide

/-- Witness for C4: the general conjunct applied at a concrete input
(`"xx<t> 9 </t>yy"`, tag `t`). -/
theorem C4_witness :
    find_version_tags_from_pom
        (String.mk ("xx".toList ++ ("<" ++ "t" ++ ">").toList ++ " 9 ".toList ++
          ("</" ++ "t" ++ ">").toList ++ "yy".toList)) ["t"]
      = some [("t", String.mk (pyStrip " 9 ".toList))] :=
  C4_extraction_between_first_markers.1 "xx".toList " 9 ".toList "yy".toList "t"
    (by decide) (by decide)

/-- Claim C5: when both markers occur but the first occurrence of the closing
marker precedes the first occurrence of the opening marker, extraction
still records the tag, deterministically with the empty value (the
trimmed slice from the end of the opening occurrence to the start of
the closing occurrence, which is empty), rather than failing or
skipping. -/
theorem C5_closing_before_opening_yields_empty :
    ∀ (content tag : String) (si ei : Nat),
      pyFind ("<" ++ tag ++ ">").toList content.toList = some si →
      pyFind ("</" ++ tag ++ ">").toList content.toList = some ei →
      ei < si →
      find_version_tags_from_pom content [tag] = some [(tag, "")] := by
  intro content tag si ei h1 h2 hlt
  simp only [find_version_tags_from_pom, List.foldl_cons, List.foldl_nil]
  rw [scan_tag_eq]
  have hf : tag_markers_found content.toList tag = true := by
    unfold tag_markers_found
    rw [h1, h2]
    rfl
  have hnil : pySlice content.toList (si + ("<" ++ tag ++ ">").toList.length) ei = [] := by
    unfold pySlice
    apply List.drop_eq_nil_of_le
    have hlen : (content.toList.take ei).length ≤ ei := by
      rw [List.length_take]
      exact Nat.min_le_left _ _
    exact le_trans hlen (le_trans (Nat.le_of_lt hlt) (Nat.le_add_right _ _))
  have hext : extracted_value content.toList tag = "" := by
    unfold extracted_value
    simp only [h1, h2]
    rw [hnil]
    rfl
  rw [if_pos hf, hext]
  rfl

/-- Witness for C5: in `"</a>x<a>"` the closing marker occurs first (at
0) and the opening marker later (at 5); the tag is still recorded, with
value `""`. -/
theorem C5_witness : find_version_tags_from_pom "</a>x<a>" ["a"] = some [("a", "")] :=
  C5_closing_before_opening_yields_empty "</a>x<a>" "a" 5 0 (by decide) (by decide) (by decide)

/-- Claim C6: a tag one of whose markers is absent is silently skipped (it
never appears as a key of a returned dict); the result is the `None`
sentinel exactly when no requested tag has both markers present; and in
particular a single requested tag without its opening marker yields the
sentinel. -/
theorem C6_absent_markers_skip_and_sentinel :
    (∀ (content : String) (tags : List String) (tag v : String)
        (l : List (String × String)),
      (pyFind ("<" ++ tag ++ ">").toList content.toList = none ∨
        pyFind ("</" ++ tag ++ ">").toList content.toList = none) →
      find_version_tags_from_pom content tags = some l → (tag, v) ∉ l) ∧
    (∀ (content : String) (tags : List String),
      find_version_tags_from_pom content tags = none ↔
        ∀ tag ∈ tags,
          pyFind ("<" ++ tag ++ ">").toList content.toList = none ∨
            pyFind ("</" ++ tag ++ ">").toList content.toList = none) ∧
    (∀ (content tag : String),
      pyFind ("<" ++ tag ++ ">").toList content.toList = none →
      find_version_tags_from_pom content [tag] = none) := by
  have hnone : ∀ (content : String) (tags : List String),
      find_version_tags_from_pom content tags = none ↔
        ∀ tag ∈ tags, tag_markers_found content.toList tag = false := by
    intro content tags
    simp only [find_version_tags_from_pom]
    by_cases he : (tags.foldl (scan_tag content.toList) []).isEmpty
    · rw [if_pos he]
      constructor
      · intro _
        exact (foldl_scan_nil_iff _ _).1 (List.isEmpty_iff.1 he)
      · intro _
        rfl
    · rw [if_neg he]
      constructor
      · intro h
        cases h
      · intro h
        exact absurd (List.isEmpty_iff.2 ((foldl_scan_nil_iff _ _).2 h)) he
  refine ⟨?_, ?_, ?_⟩
  · intro content tags tag v l habs hsome hmem
    simp only [find_version_tags_from_pom] at hsome
    by_cases he : (tags.foldl (scan_tag content.toList) []).isEmpty
    · rw [if_pos he] at hsome
      cases hsome
    · rw [if_neg he] at hsome
      injection hsome with hl
      subst hl
      rcases mem_foldl_scan content.toList tags [] hmem with h0 | ⟨hf, _⟩
      · cases h0
      · have hff := (tag_markers_found_false_iff content.toList tag).2 habs
        rw [hf] at hff
        cases hff
  · intro content tags
    rw [hnone content tags]
    constructor
    · intro h tag ht
      exact (tag_markers_found_false_iff _ _).1 (h tag ht)
    · intro h tag ht
      exact (tag_markers_found_false_iff _ _).2 (h tag ht)
  · intro content tag h
    rw [hnone content [tag]]
    intro t ht
    rcases List.mem_singleton.1 ht with rfl
    exact (tag_markers_found_false_iff _ _).2 (Or.inl h)

/-- Witness for C6: content without the opening marker of the only
requested tag yields the sentinel. -/
theorem C6_witness : find_version_tags_from_pom "<x>1</x>" ["a"] = none :=
  C6_absent_markers_skip_and_sentinel.2.2 "<x>1</x>" "a" (by decide)

/-! ### Walker soundness lemmas -/

/-- A plain-string entry ending in `pom.xml` is mapped to itself by the
recording criterion. -/
theorem matchEntry_str (s : String) (h : py_endswith s.toList "pom.xml".toList = true) :
    matchEntry (Entry.str s) = some s := by
  simp only [matchEntry]
  rw [if_pos h]

/-- A FILE entry named exactly `pom.xml` is mapped to its path by the
recording criterion. -/
theorem matchEntry_file (pth : String) :
    matchEntry (Entry.dict "FILE" "pom.xml" pth) = some pth := by
  simp [matchEntry]

/-- Every path produced while processing one page's entries either comes
from a recording entry of that very list, or was produced by one of the
recursive descents — at a URL recorded in the returned trace. -/
theorem process_values_sound (api : ListApi)
    (search1 : String → Except String (List String × List String)) (base_url : String)
    (hs : ∀ url paths trace p, search1 url = .ok (paths, trace) → p ∈ paths →
      ∃ u ∈ trace, page_produces api u p) :
    ∀ (vs : List Entry) (paths trace : List String) (p : String),
      process_values search1 base_url vs = .ok (paths, trace) → p ∈ paths →
      (∃ e ∈ vs, matchEntry e = some p) ∨ ∃ u ∈ trace, page_produces api u p := by
  intro vs
  induction vs with
  | nil =>
    intro paths trace p h hp
    simp only [process_values, Except.ok.injEq, Prod.mk.injEq] at h
    obtain ⟨h1, h2⟩ := h
    subst h1
    simp at hp
  | cons e rest ih =>
    intro paths trace p h hp
    cases e with
    | str s =>
      simp only [process_values] at h
      cases hrest : process_values search1 base_url rest with
      | error e' => rw [hrest] at h; simp at h
      | ok r2 =>
        rw [hrest] at h
        simp only [Except.ok.injEq, Prod.mk.injEq] at h
        obtain ⟨h1, h2⟩ := h
        subst h1
        subst h2
        rcases List.mem_append.1 hp with hp1 | hp2
        · by_cases hend : py_endswith s.toList "pom.xml".toList
          · rw [if_pos hend] at hp1
            rcases List.mem_singleton.1 hp1 with rfl
            exact Or.inl ⟨Entry.str p, List.mem_cons_self _ _, matchEntry_str p hend⟩
          · rw [if_neg hend] at hp1
            simp at hp1
        · rcases ih r2.1 r2.2 p hrest hp2 with ⟨e', he', hm⟩ | hr
          · exact Or.inl ⟨e', List.mem_cons_of_mem _ he', hm⟩
          · exact Or.inr hr
    | dict t n pth =>
      simp only [process_values] at h
      by_cases ht : t = "DIRECTORY"
      · rw [if_pos ht] at h
        cases hsub : search1 (base_url ++ "/" ++ pth) with
        | error e' => rw [hsub] at h; simp at h
        | ok r1 =>
          rw [hsub] at h
          cases hrest : process_values search1 base_url rest with
          | error e' => rw [hrest] at h; simp at h
          | ok r2 =>
            rw [hrest] at h
            simp only [Except.ok.injEq, Prod.mk.injEq] at h
            obtain ⟨h1, h2⟩ := h
            subst h1
            subst h2
            rcases List.mem_append.1 hp with hp1 | hp2
            · rcases hs _ r1.1 r1.2 p hsub hp1 with ⟨u, hu, hpp⟩
              exact Or.inr ⟨u, List.mem_append_left _ hu, hpp⟩
            · rcases ih r2.1 r2.2 p hrest hp2 with ⟨e', he', hm⟩ | ⟨u, hu, hpp⟩
              · exact Or.inl ⟨e', List.mem_cons_of_mem _ he', hm⟩
              · exact Or.inr ⟨u, List.mem_append_right _ hu, hpp⟩
      · rw [if_neg ht] at h
        by_cases ht2 : t = "FILE"
        · rw [if_pos ht2] at h
          cases hrest : process_values search1 base_url rest with
          | error e' => rw [hrest] at h; simp at h
          | ok r2 =>
            rw [hrest] at h
            simp only [Except.ok.injEq, Prod.mk.injEq] at h
            obtain ⟨h1, h2⟩ := h
            subst h1
            subst h2
            rcases List.mem_append.1 hp with hp1 | hp2
            · by_cases hn : n = "pom.xml"
              · rw [if_pos hn] at hp1
                rcases List.mem_singleton.1 hp1 with rfl
                subst ht2
                subst hn
                exact Or.inl ⟨Entry.dict "FILE" "pom.xml" p, List.mem_cons_self _ _,
                  matchEntry_file p⟩
              · rw [if_neg hn] at hp1
                simp at hp1
            · rcases ih r2.1 r2.2 p hrest hp2 with ⟨e', he', hm⟩ | hr
              · exact Or.inl ⟨e', List.mem_cons_of_mem _ he', hm⟩
              · exact Or.inr hr
        · rw [if_neg ht2] at h
          rcases ih paths trace p h hp with ⟨e', he', hm⟩ | hr
          · exact Or.inl ⟨e', List.mem_cons_of_mem _ he', hm⟩
          · exact Or.inr hr
    | other =>
      simp only [process_values] at h
      rcases ih paths trace p h hp with ⟨e', he', hm⟩ | hr
      · exact Or.inl ⟨e', List.mem_cons_of_mem _ he', hm⟩
      · exact Or.inr hr

/-- Soundness of the whole walk: every found path comes from a recording
entry of a successfully fetched page whose URL is in the request trace. -/
theorem recursive_search_sound (api : ListApi) (base_url api_url : String) :
    ∀ (fuel : Nat) (url : String) (paths trace : List String) (p : String),
      recursive_search api base_url api_url fuel url = .ok (paths, trace) → p ∈ paths →
      ∃ u ∈ trace, page_produces api u p := by
  intro fuel
  induction fuel with
  | zero =>
    intro url paths trace p h hp
    simp only [recursive_search, Except.ok.injEq, Prod.mk.injEq] at h
    obtain ⟨h1, h2⟩ := h
    subst h1
    simp at hp
  | succ fuel ih =>
    intro url paths trace p h hp
    simp only [recursive_search] at h
    unfold search_step at h
    split at h
    · exact Except.noConfusion h
    · rename_i data hapi
      split at h
      · exact Except.noConfusion h
      · rename_i r1 hpv
        split at h
        · rename_i hlast
          simp only [Except.ok.injEq, Prod.mk.injEq] at h
          obtain ⟨h1, h2⟩ := h
          subst h1
          subst h2
          rcases process_values_sound api _ base_url ih data.values r1.1 r1.2 p hpv hp with
            ⟨e', he', hm⟩ | ⟨u, hu, hpp⟩
          · exact ⟨url, List.mem_cons_self _ _, ⟨data, hapi, e', he', hm⟩⟩
          · exact ⟨u, List.mem_cons_of_mem _ hu, hpp⟩
        · rename_i hlast
          split at h
          · exact Except.noConfusion h
          · rename_i r2 hnext
            simp only [Except.ok.injEq, Prod.mk.injEq] at h
            obtain ⟨h1, h2⟩ := h
            subst h1
            subst h2
            rcases List.mem_append.1 hp with hp1 | hp2
            · rcases process_values_sound api _ base_url ih data.values r1.1 r1.2 p hpv hp1 with
                ⟨e', he', hm⟩ | ⟨u, hu, hpp⟩
              · exact ⟨url, List.mem_cons_self _ _, ⟨data, hapi, e', he', hm⟩⟩
              · exact ⟨u, List.mem_cons_of_mem _ (List.mem_append_left _ hu), hpp⟩
            · rcases ih _ r2.1 r2.2 p hnext hp2 with ⟨u, hu, hpp⟩
              exact ⟨u, List.mem_cons_of_mem _ (List.mem_append_right _ hu), hpp⟩

/-- Completeness over one page's entries: every path that the recording
criterion assigns to an entry of the list is in the output, and so is
every path produced by any page fetched during the recursive descents. -/
theorem process_values_complete (api : ListApi)
    (search1 : String → Except String (List String × List String)) (base_url : String)
    (hs : ∀ url paths trace u p, search1 url = .ok (paths, trace) → u ∈ trace →
      page_produces api u p → p ∈ paths) :
    ∀ (vs : List Entry) (paths trace : List String),
      process_values search1 base_url vs = .ok (paths, trace) →
      (∀ e ∈ vs, ∀ p, matchEntry e = some p → p ∈ paths) ∧
      (∀ u ∈ trace, ∀ p, page_produces api u p → p ∈ paths) := by
  intro vs
  induction vs with
  | nil =>
    intro paths trace h
    simp only [process_values, Except.ok.injEq, Prod.mk.injEq] at h
    obtain ⟨h1, h2⟩ := h
    subst h1
    subst h2
    constructor
    · intro e he
      simp at he
    · intro u hu
      simp at hu
  | cons e rest ih =>
    intro paths trace h
    cases e with
    | str s =>
      simp only [process_values] at h
      split at h
      · exact Except.noConfusion h
      · rename_i r2 hrest
        simp only [Except.ok.injEq, Prod.mk.injEq] at h
        obtain ⟨h1, h2⟩ := h
        subst h1
        subst h2
        obtain ⟨ih1, ih2⟩ := ih r2.1 r2.2 hrest
        constructor
        · intro e' he' p hm
          rcases List.mem_cons.1 he' with rfl | he'
          · simp only [matchEntry] at hm
            split at hm
            · rename_i hend
              injection hm with hm
              subst hm
              rw [if_pos hend]
              exact List.mem_append_left _ (List.mem_singleton.2 rfl)
            · exact Option.noConfusion hm
          · exact List.mem_append_right _ (ih1 e' he' p hm)
        · intro u hu p hpp
          exact List.mem_append_right _ (ih2 u hu p hpp)
    | dict t n pth =>
      simp only [process_values] at h
      by_cases ht : t = "DIRECTORY"
      · rw [if_pos ht] at h
        split at h
        · exact Except.noConfusion h
        · rename_i r1 hsub
          split at h
          · exact Except.noConfusion h
          · rename_i r2 hrest
            simp only [Except.ok.injEq, Prod.mk.injEq] at h
            obtain ⟨h1, h2⟩ := h
            subst h1
            subst h2
            obtain ⟨ih1, ih2⟩ := ih r2.1 r2.2 hrest
            constructor
            · intro e' he' p hm
              rcases List.mem_cons.1 he' with rfl | he'
              · simp only [matchEntry] at hm
                rw [if_pos ht] at hm
                exact Option.noConfusion hm
              · exact List.mem_append_right _ (ih1 e' he' p hm)
            · intro u hu p hpp
              rcases List.mem_append.1 hu with hu | hu
              · exact List.mem_append_left _ (hs _ r1.1 r1.2 u p hsub hu hpp)
              · exact List.mem_append_right _ (ih2 u hu p hpp)
      · rw [if_neg ht] at h
        by_cases ht2 : t = "FILE"
        · rw [if_pos ht2] at h
          split at h
          · exact Except.noConfusion h
          · rename_i r2 hrest
            simp only [Except.ok.injEq, Prod.mk.injEq] at h
            obtain ⟨h1, h2⟩ := h
            subst h1
            subst h2
            obtain ⟨ih1, ih2⟩ := ih r2.1 r2.2 hrest
            constructor
            · intro e' he' p hm
              rcases List.mem_cons.1 he' with rfl | he'
              · simp only [matchEntry] at hm
                rw [if_neg ht, if_pos ht2] at hm
                split at hm
                · rename_i hn
                  injection hm with hm
                  subst hm
                  rw [if_pos hn]
                  exact List.mem_append_left _ (List.mem_singleton.2 rfl)
                · exact Option.noConfusion hm
              · exact List.mem_append_right _ (ih1 e' he' p hm)
            · intro u hu p hpp
              exact List.mem_append_right _ (ih2 u hu p hpp)
        · rw [if_neg ht2] at h
          obtain ⟨ih1, ih2⟩ := ih paths trace h
          constructor
          · intro e' he' p hm
            rcases List.mem_cons.1 he' with rfl | he'
            · simp only [matchEntry] at hm
              rw [if_neg ht, if_neg ht2] at hm
              exact Option.noConfusion hm
            · exact ih1 e' he' p hm
          · exact ih2
    | other =>
      simp only [process_values] at h
      obtain ⟨ih1, ih2⟩ := ih paths trace h
      constructor
      · intro e' he' p hm
        rcases List.mem_cons.1 he' with rfl | he'
        · simp only [matchEntry] at hm
          exact Option.noConfusion hm
        · exact ih1 e' he' p hm
      · exact ih2

/-- Completeness of the whole walk: every path that the recording
criterion assigns to an entry of any page fetched during the walk is in
the result. -/
theorem recursive_search_complete (api : ListApi) (base_url api_url : String) :
    ∀ (fuel : Nat) (url : String) (paths trace : List String),
      recursive_search api base_url api_url fuel url = .ok (paths, trace) →
      ∀ u ∈ trace, ∀ p, page_produces api u p → p ∈ paths := by
  intro fuel
  induction fuel with
  | zero =>
    intro url paths trace h u hu
    simp only [recursive_search, Except.ok.injEq, Prod.mk.injEq] at h
    obtain ⟨h1, h2⟩ := h
    subst h2
    simp at hu
  | succ fuel ih =>
    intro url paths trace h u hu p hpp
    simp only [recursive_search] at h
    unfold search_step at h
    split at h
    · exact Except.noConfusion h
    · rename_i data hapi
      split at h
      · exact Except.noConfusion h
      · rename_i r1 hpv
        obtain ⟨hc1, hc2⟩ := process_values_complete api _ base_url
          (fun url' paths' trace' u' p' hok hu' hpp' => ih url' paths' trace' hok u' hu' p' hpp')
          data.values r1.1 r1.2 hpv
        split at h
        · rename_i hlast
          simp only [Except.ok.injEq, Prod.mk.injEq] at h
          obtain ⟨h1, h2⟩ := h
          subst h1
          subst h2
          rcases List.mem_cons.1 hu with heq | hu
          · obtain ⟨page, hpage, e, he, hm⟩ := hpp
            have hud : api u = .ok data := by rw [heq]; exact hapi
            rw [hpage] at hud
            injection hud with hud
            subst hud
            exact hc1 e he p hm
          · exact hc2 u hu p hpp
        · rename_i hlast
          split at h
          · exact Except.noConfusion h
          · rename_i r2 hnext
            simp only [Except.ok.injEq, Prod.mk.injEq] at h
            obtain ⟨h1, h2⟩ := h
            subst h1
            subst h2
            rcases List.mem_cons.1 hu with heq | hu
            · obtain ⟨page, hpage, e, he, hm⟩ := hpp
              have hud : api u = .ok data := by rw [heq]; exact hapi
              rw [hpage] at hud
              injection hud with hud
              subst hud
              exact List.mem_append_left _ (hc1 e he p hm)
            · rcases List.mem_append.1 hu with hu | hu
              · exact List.mem_append_left _ (hc2 u hu p hpp)
              · exact List.mem_append_right _ (ih _ r2.1 r2.2 hnext u hu p hpp)

/-! ### Claims C1, C3: pagination and depth-first ordering of the walk -/

/-- Mock listing API for C1: the root `R` lists one subdirectory `sub`;
the subdirectory's first page reports `isLastPage=false` with
`nextPageStart=7`. -/
def c1_api : ListApi := fun url =>
  if url = "R" then .ok ⟨[Entry.dict "DIRECTORY" "sub" "sub"], true, 0⟩
  else if url = "R/sub" then .ok ⟨[], false, 7⟩
  else if url = "R?start=7" then .ok ⟨[], true, 0⟩
  else .error "HTTP 404"

/-- Claim C1 (evidence of the code bug): after the subdirectory page at
`R/sub` reports `isLastPage=false` / `nextPageStart=7`, the follow-up
request goes to `R?start=7` — the repository ROOT listing URL with the
start parameter — not to the current directory's URL `R/sub?start=7`,
because line 106 builds the next-page URL from the closure variable
`api_url`.  The full request trace is `[R, R/sub, R?start=7]`. -/
theorem C1_subdir_pagination_uses_root_url :
    recursive_search c1_api "R" "R" 3 "R" = .ok ([], ["R", "R/sub", "R?start=7"]) ∧
    "R/sub?start=7" ∉ (["R", "R/sub", "R?start=7"] : List String) :=
  ⟨rfl, by decide⟩

/-- Mock listing API for C3: the root `R` lists the subdirectory `sub`
followed by a sibling file `later/pom.xml`; the subdirectory has two
pages, its second page (at `R/sub?start=25`) containing
`sub/b/pom.xml`. -/
def c3_api : ListApi := fun url =>
  if url = "R" then
    .ok ⟨[Entry.dict "DIRECTORY" "sub" "sub", Entry.str "later/pom.xml"], true, 0⟩
  else if url = "R/sub" then .ok ⟨[Entry.str "sub/a/pom.xml"], false, 25⟩
  else if url = "R/sub?start=25" then .ok ⟨[Entry.str "sub/b/pom.xml"], true, 0⟩
  else if url = "R?start=25" then .ok ⟨[], true, 0⟩
  else .error "HTTP 404"

/-- Claim C3 (evidence of the code bug): the recursive call for `sub` does
return before the sibling entry is processed (its path `sub/a/pom.xml`
precedes `later/pom.xml` in the result), but the subdirectory's
pagination is NOT drained: its second page `R/sub?start=25` is never
requested (the walker requests `R?start=25` instead), so
`sub/b/pom.xml` is never discovered. -/
theorem C3_subdir_pages_not_drained :
    recursive_search c3_api "R" "R" 4 "R"
        = .ok (["sub/a/pom.xml", "later/pom.xml"], ["R", "R/sub", "R?start=25"]) ∧
    "R/sub?start=25" ∉ (["R", "R/sub", "R?start=25"] : List String) ∧
    "sub/b/pom.xml" ∉ (["sub/a/pom.xml", "later/pom.xml"] : List String) :=
  ⟨rfl, by decide, by decide⟩

/-! ### Claims C7, C10: what the walker records and skips -/

/-- Mock listing API for C7: two overlapping root pages with recording
and non-recording entries of every kind. -/
def c7_api : ListApi := fun url =>
  if url = "U" then
    .ok ⟨[Entry.str "a/pom.xml", Entry.dict "FILE" "pom.xml" "b/pom.xml",
          Entry.str "notes.txt", Entry.str "x/mypom.xml",
          Entry.dict "FILE" "other.xml" "c/other.xml",
          Entry.dict "SUBMODULE" "m" "m"], false, 20⟩
  else if url = "U?start=20" then .ok ⟨[Entry.str "a/pom.xml", Entry.other], true, 0⟩
  else .error "HTTP 404"

/-- Claim C7: (soundness) every path in the walker's result comes from an
entry of a fetched page that the recording criterion `matchEntry` maps
to it — a plain string ending in `pom.xml` or a FILE entry named
exactly `pom.xml`; (completeness) every path the criterion assigns to
an entry of any fetched page is in the result; (concrete part) on a run
with overlapping pages the result is exactly the matching entries in
discovery order, with the duplicate `a/pom.xml` kept, `notes.txt` /
`other.xml` / SUBMODULE / non-string-non-dict entries excluded, and the
string `x/mypom.xml` included because the string case tests only the
`pom.xml` suffix. -/
theorem C7_paths_exactly_matching_entries :
    (∀ (api : ListApi) (base_url api_url : String) (fuel : Nat) (url : String)
        (paths trace : List String) (p : String),
      recursive_search api base_url api_url fuel url = .ok (paths, trace) → p ∈ paths →
      ∃ u ∈ trace, page_produces api u p) ∧
    (∀ (api : ListApi) (base_url api_url : String) (fuel : Nat) (url : String)
        (paths trace : List String),
      recursive_search api base_url api_url fuel url = .ok (paths, trace) →
      ∀ u ∈ trace, ∀ p, page_produces api u p → p ∈ paths) ∧
    find_pom_xml_in_repo c7_api "U" "U" 3 =
      .ok ["a/pom.xml", "b/pom.xml", "x/mypom.xml", "a/pom.xml"] :=
  ⟨recursive_search_sound, recursive_search_complete, rfl⟩

/-- Witness for C7: both general conjuncts applied to the concrete run
of `c7_api`, for the found path `b/pom.xml`. -/
theorem C7_witness :
    (∃ u ∈ (["U", "U?start=20"] : List String), page_produces c7_api u "b/pom.xml") ∧
    "b/pom.xml" ∈ (["a/pom.xml", "b/pom.xml", "x/mypom.xml", "a/pom.xml"] : List String) :=
  ⟨C7_paths_exactly_matching_entries.1 c7_api "U" "U" 3 "U"
    ["a/pom.xml", "b/pom.xml", "x/mypom.xml", "a/pom.xml"] ["U", "U?start=20"]
    "b/pom.xml" rfl (by decide),
   C7_paths_exactly_matching_entries.2.1 c7_api "U" "U" 3 "U"
    ["a/pom.xml", "b/pom.xml", "x/mypom.xml", "a/pom.xml"] ["U", "U?start=20"]
    rfl "U" (by decide) "b/pom.xml"
    ⟨⟨[Entry.str "a/pom.xml", Entry.dict "FILE" "pom.xml" "b/pom.xml",
       Entry.str "notes.txt", Entry.str "x/mypom.xml",
       Entry.dict "FILE" "other.xml" "c/other.xml",
       Entry.dict "SUBMODULE" "m" "m"], false, 20⟩, rfl,
      Entry.dict "FILE" "pom.xml" "b/pom.xml", by decide, by decide⟩⟩

/-- Claim C10: a structured entry whose type is neither DIRECTORY nor FILE,
and an entry that is neither a string nor a dict, are skipped silently:
processing the page with such a leading entry records nothing for it,
performs no recursion for it, raises no error, and equals processing
the remaining entries. -/
theorem C10_unknown_entries_skipped :
    ∀ (api : ListApi) (base_url api_url : String) (fuel : Nat)
      (type name path : String) (rest : List Entry),
      (type ≠ "DIRECTORY" → type ≠ "FILE" →
        process_values (recursive_search api base_url api_url fuel) base_url
            (Entry.dict type name path :: rest)
          = process_values (recursive_search api base_url api_url fuel) base_url rest) ∧
      process_values (recursive_search api base_url api_url fuel) base_url
          (Entry.other :: rest)
        = process_values (recursive_search api base_url api_url fuel) base_url rest := by
  intro api b a fuel t n pth rest
  constructor
  · intro h1 h2
    simp only [process_values]
    rw [if_neg h1, if_neg h2]
  · simp only [process_values]

/-- Witness for C10: a SUBMODULE entry in front of a plain-string entry
changes nothing. -/
theorem C10_witness :
    process_values (recursive_search (fun _ => .error "HTTP 404") "B" "B" 1) "B"
        [Entry.dict "SUBMODULE" "m" "m", Entry.str "a/pom.xml"]
      = process_values (recursive_search (fun _ => .error "HTTP 404") "B" "B" 1) "B"
        [Entry.str "a/pom.xml"] :=
  (C10_unknown_entries_skipped (fun _ => .error "HTTP 404") "B" "B" 1 "SUBMODULE" "m" "m"
    [Entry.str "a/pom.xml"]).1 (by decide) (by decide)

/-! ### Orchestrator lemmas -/

/-- A fold that appends each element's contribution equals the
concatenation of the contributions. -/
theorem foldl_emit {α β} (g : α → List β) (step : List β → α → List β)
    (hstep : ∀ acc x, step acc x = acc ++ g x) :
    ∀ (l : List α) (acc : List β), l.foldl step acc = acc ++ (l.map g).flatten := by
  intro l
  induction l with
  | nil => intro acc; simp
  | cons x xs ih =>
    intro acc
    simp only [List.foldl_cons, List.map_cons, List.flatten_cons]
    rw [hstep, ih]
    simp [List.append_assoc]

/-- The per-repository row sequence is the concatenation of the
per-file-task row sequences, in submission order. -/
theorem repo_rows_eq (fetch : FetchApi) (project_key repo_slug base_api_url : String)
    (pom_files version_tags : List String) :
    repo_rows fetch project_key repo_slug base_api_url pom_files version_tags
      = (pom_files.map
          (rows_of_task fetch project_key repo_slug base_api_url version_tags)).flatten := by
  unfold repo_rows
  rw [foldl_emit (rows_of_task fetch project_key repo_slug base_api_url version_tags) _
    (fun _ _ => rfl)]
  simp

/-- The rows one repository contributes to the report: nothing if its
processing raised, else its `repo_rows`. -/
def repo_contribution (api : ListApi) (fetch : FetchApi) (base_api_url : String)
    (version_tags : List String) (fuel : Nat) (pr : String × String) : List Row :=
  match process_repository api pr.2 pr.1 base_api_url fuel with
  | .error _ => []
  | .ok pom_files => repo_rows fetch pr.1 pr.2 base_api_url pom_files version_tags

/-- The whole report is the concatenation of the per-repository
contributions, in configuration order. -/
theorem main_rows_eq (api : ListApi) (fetch : FetchApi) (base_api_url : String)
    (project_keys_and_slugs : List (String × String)) (version_tags : List String)
    (fuel : Nat) :
    main_rows api fetch base_api_url project_keys_and_slugs version_tags fuel
      = (project_keys_and_slugs.map
          (repo_contribution api fetch base_api_url version_tags fuel)).flatten := by
  unfold main_rows
  rw [foldl_emit (repo_contribution api fetch base_api_url version_tags fuel) _ ?_]
  · simp
  · intro acc pr
    unfold repo_contribution
    cases hx : process_repository api pr.2 pr.1 base_api_url fuel with
    | error e => simp
    | ok pom_files => simp

/-! ### Claims C8, C9: failure isolation -/

/-- Claim C8: if processing one configured repository raises (an exception
escaping `process_repository`), that repository contributes no rows and
the report equals the report of the run without it — every other
repository is still scanned and reported; the run is not aborted. -/
theorem C8_repo_failure_isolated :
    ∀ (api : ListApi) (fetch : FetchApi) (base_api_url : String)
      (version_tags : List String) (fuel : Nat)
      (pre post : List (String × String)) (project_key repo_slug e : String),
      process_repository api repo_slug project_key base_api_url fuel = .error e →
      main_rows api fetch base_api_url (pre ++ (project_key, repo_slug) :: post)
          version_tags fuel
        = main_rows api fetch base_api_url (pre ++ post) version_tags fuel := by
  intro api fetch base tags fuel pre post pk rs e h
  rw [main_rows_eq, main_rows_eq]
  have hc : repo_contribution api fetch base tags fuel (pk, rs) = [] := by
    show (match process_repository api rs pk base fuel with
      | .error _ => ([] : List Row)
      | .ok pom_files => repo_rows fetch pk rs base pom_files tags) = []
    rw [h]
  rw [List.map_append, List.map_cons, List.flatten_append, List.flatten_cons, hc,
    List.map_append, List.flatten_append]
  simp

/-- Mock listing API for the C8 witness: the listing of repository
`P2/bad` fails; every other listing is a one-entry last page. -/
def c8_api : ListApi := fun url =>
  if url = "B/projects/P2/repos/bad/files" then .error "boom"
  else .ok ⟨[Entry.str "pom.xml"], true, 0⟩

/-- Mock raw-content API for the C8 witness. -/
def c8_fetch : FetchApi := fun _ => .ok "<a>1</a>"

/-- Witness for C8: with the failing repository `P2/bad` between two
healthy repositories, the report equals the report without it. -/
theorem C8_witness :
    process_repository c8_api "bad" "P2" "B" 2 = .error "boom" ∧
    main_rows c8_api c8_fetch "B" [("P", "good"), ("P2", "bad"), ("P", "good2")] ["a"] 2
      = main_rows c8_api c8_fetch "B" [("P", "good"), ("P", "good2")] ["a"] 2 :=
  ⟨rfl, C8_repo_failure_isolated c8_api c8_fetch "B" ["a"] 2
    [("P", "good")] [("P", "good2")] "P2" "bad" "boom" rfl⟩

/-- Claim C9: if the raw-content fetch of one discovered file raises, the
task for that file yields `none` (no record), the file contributes no
rows, and the sibling file tasks of the same repository produce exactly
the rows they would produce without it. -/
theorem C9_file_task_failure_isolated :
    ∀ (fetch : FetchApi) (project_key repo_slug base_api_url : String)
      (version_tags : List String) (pom_file e : String) (pre post : List String),
      fetch_file_content fetch project_key repo_slug pom_file base_api_url = .error e →
      fetch_and_parse_pom fetch project_key repo_slug pom_file base_api_url version_tags
          = none ∧
      repo_rows fetch project_key repo_slug base_api_url (pre ++ pom_file :: post)
          version_tags
        = repo_rows fetch project_key repo_slug base_api_url (pre ++ post) version_tags := by
  intro fetch pk rs base tags f e pre post h
  have htask : fetch_and_parse_pom fetch pk rs f base tags = none := by
    unfold fetch_and_parse_pom
    rw [h]
  refine ⟨htask, ?_⟩
  rw [repo_rows_eq, repo_rows_eq]
  have hrows : rows_of_task fetch pk rs base tags f = [] := by
    unfold rows_of_task
    rw [htask]
  rw [List.map_append, List.map_cons, List.flatten_append, List.flatten_cons, hrows,
    List.map_append, List.flatten_append]
  simp

/-- Mock raw-content API for the C9 witness: fetching `bad/pom.xml`
fails; every other fetch succeeds. -/
def c9_fetch : FetchApi := fun url =>
  if url = "B/projects/P/repos/R/browse/bad/pom.xml?raw" then .error "HTTP 500"
  else .ok "<a>1</a>"

/-- Witness for C9: with the failing file between two healthy files,
the repository's rows equal the rows without it. -/
theorem C9_witness :
    fetch_and_parse_pom c9_fetch "P" "R" "bad/pom.xml" "B" ["a"] = none ∧
    repo_rows c9_fetch "P" "R" "B" ["good/pom.xml", "bad/pom.xml", "good2/pom.xml"] ["a"]
      = repo_rows c9_fetch "P" "R" "B" ["good/pom.xml", "good2/pom.xml"] ["a"] :=
  C9_file_task_failure_isolated c9_fetch "P" "R" "B" ["a"] "bad/pom.xml" "HTTP 500"
    ["good/pom.xml"] ["good2/pom.xml"] rfl

/-! ### Claim C2: the round-trip property of written rows -/

/-- Any row of a repository's report comes from one of the discovered
files' tasks. -/
theorem mem_repo_rows {fetch : FetchApi} {project_key repo_slug base_api_url : String}
    {pom_files version_tags : List String} {r : Row}
    (h : r ∈ repo_rows fetch project_key repo_slug base_api_url pom_files version_tags) :
    ∃ f ∈ pom_files, r ∈ rows_of_task fetch project_key repo_slug base_api_url
      version_tags f := by
  rw [repo_rows_eq] at h
  rcases List.mem_flatten.1 h with ⟨l, hl, hr⟩
  rcases List.mem_map.1 hl with ⟨f, hf, rfl⟩
  exact ⟨f, hf, hr⟩

/-- Any row of one file task's output comes from a successful fetch of
that file and a (tag, value) pair of the extraction result. -/
theorem mem_rows_of_task {fetch : FetchApi} {project_key repo_slug base_api_url : String}
    {version_tags : List String} {pom_file : String} {r : Row}
    (h : r ∈ rows_of_task fetch project_key repo_slug base_api_url version_tags pom_file) :
    ∃ content versions,
      fetch_file_content fetch project_key repo_slug pom_file base_api_url = .ok content ∧
      find_version_tags_from_pom content version_tags = some versions ∧
      r.projectKey = project_key ∧ r.repoSlug = repo_slug ∧ r.filePath = pom_file ∧
      (r.versionTag, r.version) ∈ versions := by
  unfold rows_of_task at h
  split at h
  · rename_i pv htask
    split at h
    · simp at h
    · rename_i hne
      have hdec : pv.1 = pom_file ∧ ∃ content,
          fetch_file_content fetch project_key repo_slug pom_file base_api_url
            = .ok content ∧
          find_version_tags_from_pom content version_tags = some pv.2 := by
        unfold fetch_and_parse_pom at htask
        split at htask
        · exact Option.noConfusion htask
        · rename_i content hfc
          split at htask
          · rename_i versions hfv
            simp only [Option.some.injEq] at htask
            subst htask
            exact ⟨rfl, content, hfc, hfv⟩
          · exact Option.noConfusion htask
      obtain ⟨hpf, content, hfc, hfv⟩ := hdec
      rcases List.mem_map.1 h with ⟨tv, htv, rfl⟩
      exact ⟨content, pv.2, hfc, hfv, rfl, rfl, hpf, htv⟩
  · simp at h

/-- The spec-side raw-content API for the C2 counterexample: each file's
content is `"</a>x<a>"`, in which the closing marker precedes the
opening marker. -/
def c2_fetch : FetchApi := fun _ => .ok "</a>x<a>"

/-- Claim C2 counterexample: with content `"</a>x<a>"` the run writes the row
`(P, R, pom.xml, a, "")`, yet no matched opening/closing pair of the
`a` markers encloses `""` (or anything) in that content — the opening
marker's only occurrence comes after the closing marker's only
occurrence.  The claim as stated is therefore false on the code. -/
theorem C2_roundtrip_counterexample :
    repo_rows c2_fetch "P" "R" "B" ["pom.xml"] ["a"]
      = [⟨"P", "R", "pom.xml", "a", ""⟩] ∧
    matched_pair_encloses "</a>x<a>" "a" "" = false :=
  ⟨rfl, by decide⟩

/-- Claim C2 (amended): every written row carries the repository's project
key and slug, its file's fetch succeeded, both markers of its tag occur
in the fetched content, and its value is the trimmed slice between the
end of the FIRST occurrence of the opening marker and the start of the
FIRST occurrence of the closing marker; whenever the first opening
occurrence ends no later than the first closing occurrence starts (the
non-pathological case), that value is indeed enclosed by a matched pair
of markers in the content. -/
theorem C2_roundtrip_amended :
    ∀ (fetch : FetchApi) (project_key repo_slug base_api_url : String)
      (pom_files version_tags : List String) (r : Row),
      r ∈ repo_rows fetch project_key repo_slug base_api_url pom_files version_tags →
      r.projectKey = project_key ∧ r.repoSlug = repo_slug ∧
      ∃ content,
        fetch_file_content fetch project_key repo_slug r.filePath base_api_url
          = .ok content ∧
        ∃ si ei,
          pyFind ("<" ++ r.versionTag ++ ">").toList content.toList = some si ∧
          pyFind ("</" ++ r.versionTag ++ ">").toList content.toList = some ei ∧
          r.version = String.mk (pyStrip (pySlice content.toList
            (si + ("<" ++ r.versionTag ++ ">").toList.length) ei)) ∧
          (si + ("<" ++ r.versionTag ++ ">").toList.length ≤ ei →
            matched_pair_encloses content r.versionTag r.version = true) := by
  intro fetch pk rs base files tags r hmem
  rcases mem_repo_rows hmem with ⟨f, hf, hr⟩
  rcases mem_rows_of_task hr with ⟨content, versions, hfc, hfv, hpk, hrs, hfp, hin⟩
  refine ⟨hpk, hrs, content, by rw [hfp]; exact hfc, ?_⟩
  have hv : (r.versionTag, r.version) ∈ tags.foldl (scan_tag content.toList) [] := by
    simp only [find_version_tags_from_pom] at hfv
    by_cases he : (tags.foldl (scan_tag content.toList) []).isEmpty
    · rw [if_pos he] at hfv
      cases hfv
    · rw [if_neg he] at hfv
      injection hfv with hfv
      rw [hfv]
      exact hin
  rcases mem_foldl_scan content.toList tags [] hv with h0 | ⟨hfound, hval⟩
  · simp at h0
  · unfold tag_markers_found at hfound
    rw [Bool.and_eq_true] at hfound
    obtain ⟨ho, hc⟩ := hfound
    rcases Option.isSome_iff_exists.1 ho with ⟨si, hsi⟩
    rcases Option.isSome_iff_exists.1 hc with ⟨ei, hei⟩
    refine ⟨si, ei, hsi, hei, ?_, ?_⟩
    · rw [hval]
      unfold extracted_value
      simp only [hsi, hei]
    · intro hle
      have hsi_le := pyFind_le _ _ _ hsi
      have hei_le := pyFind_le _ _ _ hei
      simp only [matched_pair_encloses]
      rw [List.any_eq_true]
      refine ⟨si, List.mem_range.2 (Nat.lt_succ_of_le hsi_le), ?_⟩
      rw [List.any_eq_true]
      refine ⟨ei, List.mem_range.2 (Nat.lt_succ_of_le hei_le), ?_⟩
      rw [Bool.and_eq_true, Bool.and_eq_true, Bool.and_eq_true]
      refine ⟨⟨⟨pyFind_occursAt _ _ _ hsi, pyFind_occursAt _ _ _ hei⟩,
        decide_eq_true hle⟩, decide_eq_true ?_⟩
      rw [hval]
      unfold extracted_value
      simp only [hsi, hei]

/-- Raw-content API for the C2 amended witness: every file's content is
the well-formed `"<a>1</a>"`. -/
def c2w_fetch : FetchApi := fun _ => .ok "<a>1</a>"

/-- Witness for the amended C2: applied to the concrete row
`(P, R, pom.xml, a, "1")` written from content `"<a>1</a>"`. -/
theorem C2_roundtrip_amended_witness :
    (⟨"P", "R", "pom.xml", "a", "1"⟩ : Row).projectKey = "P" ∧
    (⟨"P", "R", "pom.xml", "a", "1"⟩ : Row).repoSlug = "R" ∧
    ∃ content,
      fetch_file_content c2w_fetch "P" "R"
          (⟨"P", "R", "pom.xml", "a", "1"⟩ : Row).filePath "B" = .ok content ∧
      ∃ si ei,
        pyFind ("<" ++ "a" ++ ">").toList content.toList = some si ∧
        pyFind ("</" ++ "a" ++ ">").toList content.toList = some ei ∧
        ("1" : String) = String.mk (pyStrip (pySlice content.toList
          (si + ("<" ++ "a" ++ ">").toList.length) ei)) ∧
        (si + ("<" ++ "a" ++ ">").toList.length ≤ ei →
          matched_pair_encloses content "a" "1" = true) :=
  C2_roundtrip_amended c2w_fetch "P" "R" "B" ["pom.xml"] ["a"]
    ⟨"P", "R", "pom.xml", "a", "1"⟩ (by decide)
